import Mathlib

/-!
Verification of the Virtual-Energy-Trading backend services
(`backend/app/services/*.py`) against their specification.

The embedding models the persistence layer as a `DB` value holding the rows
of the four tables (bids, contracts, market data, PnL records) as lists in
insertion order; SQL `SELECT ... WHERE` queries of the services become list
filters, `.first()` becomes `List.find?`, and `.all()` the filtered list.
Python object mutation inside a service call is modelled by carrying the
positional index of each row and writing the updated row back at its index.
`Decimal` quantities and prices are modelled as `ℚ` (with explicit
half-even rounding to two decimals where the source quantizes), dates as
abstract `Nat` day codes, hours as `Nat`, and enum-typed columns as
inductive types.  Wall-clock timestamp columns (`timestamp`,
`execution_time`, `calculation_time`) play no role in any service logic
and are omitted.  Random draws (`random.uniform`) are injected as an
explicit stream of rationals, one per generated row.

Schema drift, and the two readings embedded here.  `models/market_data.py`
names its date column `date`, but every service query addresses the class
attribute `MarketData.trade_date` (clearing_service.py line 29,
market_data_service.py lines 20/66/79/90, pnl_service.py lines 42/57), an
attribute the model does not define; on a SQLModel class that access
raises `AttributeError` at query-construction time, before any row is
fetched.  In the source as written, therefore, `generate_mock_prices`
fails on its first statement for every input, `clear_market` fails at
lines 27-33 on every call (that query runs before the empty-bids early
return), and `calculate_pnl` fails at lines 40-46 whenever an eligible
contract exists.  This file embeds both readings, explicitly:
- the AS-WRITTEN reading (`clear_market_as_written`,
  `generate_mock_prices_as_written`, `calculate_pnl_as_written`), in which
  those calls return the `AttributeError`;
- the SCHEMA-REPAIRED reading (`clear_market`, `generate_mock_prices`,
  `calculate_pnl`), which renames the model's `date` column to the
  `trade_date` the services expect, so that the services' queries mean
  what they plainly intend; the matching-logic and price-lookup behavior
  of the source past the failing attribute access is embedded under this
  reading and is the subject of the matching/pricing counterexamples.
A parallel drift sits in bid submission: `bid_service.py` line 45 reads
`bid_data.type` while `schemas/bid.py` names the field `bid_type`, so the
success path of `create_bid` as written also raises `AttributeError`
(after both the quota and the cutoff checks); the embedding repairs this
read too, and documents it at `create_bid`.
-/

namespace VET

/-- Bid side, `BidType` in `models/bid.py` (`BUY`/`SELL`). -/
inductive BidType
  | buy
  | sell
deriving DecidableEq, Repr

/-- Bid lifecycle status, `BidStatus` in `models/bid.py`. -/
inductive BidStatus
  | pending
  | executed
  | rejected
deriving DecidableEq, Repr

/-- Contract lifecycle status, `ContractStatus` in `models/contract.py`. -/
inductive ContractStatus
  | active
  | completed
  | cancelled
deriving DecidableEq, Repr

/-- Market data kind, `MarketDataType` in `models/market_data.py`. -/
inductive MarketDataType
  | dayAhead
  | realTime
deriving DecidableEq, Repr

/-- A row of the bid table (`Bid` in `models/bid.py`).  `id` abstracts the
uuid primary key as a `Nat`. -/
structure Bid where
  id : Nat
  user_id : Nat
  hour : Nat
  bid_type : BidType
  quantity : ℚ
  price : ℚ
  bid_date : Nat
  status : BidStatus
  execution_price : Option ℚ := none
deriving DecidableEq, Repr

/-- A row of the contract table (`Contract` in `models/contract.py`).
`contract_type` is a plain string in the source (`"BUY"`/`"SELL"`), kept
as a `String` here because `pnl_service` branches on `== "BUY"`. -/
structure Contract where
  id : Nat := 0
  bid_id : Nat
  user_id : Nat
  hour : Nat
  contract_type : String
  quantity : ℚ
  execution_price : ℚ
  execution_date : Nat
  status : ContractStatus
deriving DecidableEq, Repr

/-- A row of the market-data table under the SCHEMA-REPAIRED reading.
`models/market_data.py` names the date column `date`; every service
addresses it as `trade_date`, which the model does not define, so in the
source each such query raises `AttributeError` (see
`clear_market_as_written`, `generate_mock_prices_as_written`,
`calculate_pnl_as_written` for the as-written semantics).  The repaired
reading gives the column the name the services expect. -/
structure MarketData where
  trade_date : Nat
  hour : Nat
  data_type : MarketDataType
  price : ℚ
  source : String := "mock"
deriving DecidableEq, Repr

/-- A row of the PnL table (`PnLRecord` in `models/pnl.py`).  `pnl_type`
is a plain string (`"REALIZED"`/`"UNREALIZED"`) as in the source. -/
structure PnLRecord where
  user_id : Nat
  contract_id : Nat
  date : Nat
  hour : Nat
  day_ahead_price : ℚ
  real_time_price : ℚ
  quantity : ℚ
  pnl_amount : ℚ
  pnl_type : String
deriving DecidableEq, Repr

/-- The persistent store: one list per table, in row-insertion order. -/
structure DB where
  bids : List Bid := []
  contracts : List Contract := []
  marketData : List MarketData := []
  pnlRecords : List PnLRecord := []
deriving DecidableEq, Repr

/-! ### Stable sorting

Python's `list.sort(key=...)` is a stable sort.  `insertionSortBy le`
is the stable sort for a total boolean comparison `le` (elements compare
equal under the sort key keep their original relative order when `le` is
reflexive on ties), implemented by structural recursion so that concrete
runs reduce definitionally. -/

/-- Insert `a` into `l`, before the first element `b` with `le a b`. -/
def insertSortedBy (le : α → α → Bool) (a : α) : List α → List α
  | [] => [a]
  | b :: l => if le a b then a :: b :: l else b :: insertSortedBy le a l

/-- Stable insertion sort with comparison `le`. -/
def insertionSortBy (le : α → α → Bool) : List α → List α
  | [] => []
  | a :: l => insertSortedBy le a (insertionSortBy le l)

/-! ### `bid_service.create_bid` -/

/-- Payload of a bid submission (`BidCreate` in `schemas/bid.py`). -/
structure BidCreate where
  hour : Nat
  bid_type : BidType
  quantity : ℚ
  price : ℚ
  user_id : Nat
deriving DecidableEq, Repr

/-- The two `HTTPException(status_code=400, ...)` failures of
`create_bid`: `quotaExceeded` is `"Maximum 10 bids per hour exceeded"`,
`marketClosed` is `"Market is closed. Bidding closes at 11:00 AM"`. -/
inductive BidError
  | quotaExceeded
  | marketClosed
deriving DecidableEq, Repr

/-- The PENDING bids of owner `u` for hour `h` and trading date `d`:
the query at the top of `create_bid` and the quota denominator. -/
def pendingBidsFor (db : DB) (u h d : Nat) : List Bid :=
  db.bids.filter fun b =>
    b.user_id == u && b.hour == h && b.bid_date == d && b.status == BidStatus.pending

/-- Number of PENDING bids of owner `u` for hour `h` and date `d`. -/
def pendingCount (db : DB) (u h d : Nat) : Nat :=
  (pendingBidsFor db u h d).length

/-- `BidService.create_bid` (`services/bid_service.py`, lines 16-55).
`today` is `datetime.now().date()` (both the quota key's date and the
default `bid_date` of the new row), `nowHour` is `datetime.now().hour`,
and `newId` abstracts the generated uuid.  The source first counts the
owner's PENDING bids for (`user_id`, `hour`, today) and raises the quota
error at 10 or more; only then does it check the 11:00 cutoff; otherwise
it inserts a new PENDING bid row carrying the payload's fields.  The
quota and cutoff branches are embedded exactly as written (the quota
query uses real `Bid` columns, and both exceptions are raised before any
insert).  Two divergences of the source's success path are repaired
here and do not affect those branches: line 45 reads `bid_data.type`,
absent from `BidCreate` (whose field is `bid_type`), so the as-written
insert raises `AttributeError` after both checks; and the `Bid`
constructor's `_validate_bid` re-raises `ValueError` for out-of-range
hour/quantity/price, paths not exercised by the bounds-respecting
payloads of the claims. -/
def create_bid (db : DB) (bd : BidCreate) (today nowHour newId : Nat) :
    Except BidError (DB × Bid) :=
  if 10 ≤ pendingCount db bd.user_id bd.hour today then
    .error .quotaExceeded
  else if 11 ≤ nowHour then
    .error .marketClosed
  else
    let bid : Bid :=
      { id := newId, user_id := bd.user_id, hour := bd.hour,
        bid_type := bd.bid_type, quantity := bd.quantity, price := bd.price,
        bid_date := today, status := .pending }
    .ok ({ db with bids := db.bids ++ [bid] }, bid)

/-! ### `market_data_service.generate_mock_prices` -/

/-- Floor of a rational, computed by floor division of numerator by
denominator (the denominator of a `ℚ` is positive). -/
def ratFloor (q : ℚ) : ℤ :=
  Int.fdiv q.num (q.den : ℤ)

/-- Round to two decimal places with ties to even:
`Decimal.quantize(Decimal(\x7b0.01\x7d))` under the default
`ROUND_HALF_EVEN` context of Python's `decimal` module. -/
def quantize2 (q : ℚ) : ℚ :=
  let t : ℚ := q * 100
  let f : ℤ := ratFloor t
  let r : ℚ := t - (f : ℚ)
  if r < 1 / 2 then (f : ℚ) / 100
  else if 1 / 2 < r then ((f : ℚ) + 1) / 100
  else if f % 2 = 0 then (f : ℚ) / 100
  else ((f : ℚ) + 1) / 100

/-- Hourly base price of the mock generator: 60 during the peak hours
06-09 and 17-21, else 35 (`generate_mock_prices`, lines 31-36). -/
def basePrice (hour : Nat) : ℚ :=
  if (6 ≤ hour ∧ hour ≤ 9) ∨ (17 ≤ hour ∧ hour ≤ 21) then 60 else 35

/-- The existing market-data rows for (`target_date`, `data_type`):
the query at the top of `generate_mock_prices` (lines 18-23), under the
schema-repaired reading.  As written this query raises `AttributeError`
at `MarketData.trade_date`, so the source never reaches its existence
check: see `generate_mock_prices_as_written`. -/
def existingQuotes (db : DB) (d : Nat) (t : MarketDataType) : List MarketData :=
  db.marketData.filter fun m => m.trade_date == d && m.data_type == t

/-- The 24 fresh hourly rows built by the generation loop of
`generate_mock_prices` (lines 31-54): for each hour, the peak/off-peak
base price times that hour's random draw, quantized to two decimals.
The source constructs each row as `MarketData(trade_date=...)`, a
keyword the model does not accept while its required `date` column is
never set; the repaired reading takes it as populating the date column
under the services' name for it. -/
def genRecs (d : Nat) (t : MarketDataType) (variation : Nat → ℚ) :
    List MarketData :=
  (List.range 24).map fun h =>
    { trade_date := d, hour := h, data_type := t,
      price := quantize2 (basePrice h * variation h), source := "mock" }

/-- `MarketDataService.generate_mock_prices` (`services/market_data_service.py`,
lines 15-62), SCHEMA-REPAIRED reading (the as-written function fails on
its first statement: `generate_mock_prices_as_written`).  `variation`
injects the stream of `random.uniform(0.8, 1.2)` draws, one per hour.
If any rows already exist for the (date, kind) pair they are returned
unchanged and nothing is inserted; otherwise the 24 fresh rows are
appended to the table and returned. -/
def generate_mock_prices (db : DB) (d : Nat) (t : MarketDataType)
    (variation : Nat → ℚ) : DB × List MarketData :=
  let existing := existingQuotes db d t
  if existing ≠ [] then
    (db, existing)
  else
    let recs := genRecs d t variation
    ({ db with marketData := db.marketData ++ recs }, recs)

/-! ### `pnl_service.calculate_pnl` -/

/-- First market-data row for (`target_date`, `hour`, `data_type`):
the per-contract price lookups of `calculate_pnl` (lines 40-46, 55-61),
under the schema-repaired reading.  As written these lookups raise
`AttributeError` at `MarketData.trade_date` before fetching any row:
see `calculate_pnl_as_written`. -/
def priceLookup (db : DB) (d h : Nat) (t : MarketDataType) : Option MarketData :=
  db.marketData.find? fun m =>
    m.trade_date == d && m.hour == h && m.data_type == t

/-- Whether a contract is selected by the `calculate_pnl` query: owned by
`u`, executed on `d`, and ACTIVE or COMPLETED (lines 24-31). -/
def pnlEligible (u d : Nat) (c : Contract) : Bool :=
  c.user_id == u && c.execution_date == d &&
    (c.status == ContractStatus.active || c.status == ContractStatus.completed)

/-- The PnL row built for one contract by the loop body of
`calculate_pnl` (lines 38-90): `none` when the day-ahead or real-time
quote for the contract's hour is missing (the contract is skipped). -/
def pnlRecordFor (db : DB) (u d : Nat) (c : Contract) : Option PnLRecord :=
  match priceLookup db d c.hour .dayAhead with
  | none => none
  | some dam =>
    match priceLookup db d c.hour .realTime with
    | none => none
    | some rtm =>
      let amount : ℚ :=
        if c.contract_type == "BUY" then
          (rtm.price - dam.price) * c.quantity
        else
          (dam.price - rtm.price) * c.quantity
      some { user_id := u, contract_id := c.id, date := d, hour := c.hour,
             day_ahead_price := dam.price, real_time_price := rtm.price,
             quantity := c.quantity, pnl_amount := amount,
             pnl_type :=
               if c.status == ContractStatus.completed then "REALIZED"
               else "UNREALIZED" }

/-- `PnLService.calculate_pnl` (`services/pnl_service.py`, lines 17-98),
SCHEMA-REPAIRED reading (as written the first price lookup fails whenever
an eligible contract exists: `calculate_pnl_as_written`): select the
eligible contracts, build one record per contract that has both quotes,
persist the records, and return them. -/
def calculate_pnl (db : DB) (u d : Nat) : DB × List PnLRecord :=
  let contracts := db.contracts.filter (pnlEligible u d)
  if contracts = [] then (db, [])
  else
    let recs := contracts.filterMap (pnlRecordFor db u d)
    ({ db with pnlRecords := db.pnlRecords ++ recs }, recs)

/-! ### `clearing_service.clear_market` -/

/-- Whether a bid row is selected by the clearing query: PENDING and
dated `d` (lines 20-25). -/
def clearingPending (d : Nat) (b : Bid) : Bool :=
  b.bid_date == d && b.status == BidStatus.pending

/-- The day-ahead price row used by `clear_market` (lines 27-33), under
the schema-repaired reading.  The source query compares
`MarketData.hour` with the `Bid` column inside a `select(MarketData)`,
which the ORM turns into an implicit cross join on the whole bid table:
the row fetched by `.first()` is the first DAY_AHEAD row for the date
whose hour equals the hour of some bid row (of any date and status).  A
single such row, or `None`, serves the entire pass.  As written the
query never constructs at all — its first conjunct reads
`MarketData.trade_date`, raising `AttributeError` on every call: see
`clear_market_as_written`. -/
def clearDaPrice (db : DB) (d : Nat) : Option MarketData :=
  (db.marketData.filter fun m =>
      m.trade_date == d && m.data_type == MarketDataType.dayAhead).find?
    fun m => db.bids.any fun b => b.hour == m.hour

/-- The two contract rows built for a matched buy/sell pair at execution
price `p` for date `d` (lines 65-85): a BUY-side and a SELL-side contract,
both ACTIVE, dated to the cleared date, with the traded quantity
`min(buy.quantity, sell.quantity)`. -/
def mkContractPair (b s : Bid) (p : ℚ) (d : Nat) : Contract × Contract :=
  let q := min b.quantity s.quantity
  ({ bid_id := b.id, user_id := b.user_id, hour := b.hour,
     contract_type := "BUY", quantity := q, execution_price := p,
     execution_date := d, status := .active },
   { bid_id := s.id, user_id := s.user_id, hour := s.hour,
     contract_type := "SELL", quantity := q, execution_price := p,
     execution_date := d, status := .active })

/-- The in-place update applied to each side of a matched pair
(lines 88-112): status EXECUTED, execution price recorded, quantity
reduced by the traded amount.  The source re-marks EXECUTED when the
reduced quantity is non-positive, a no-op after line 88/92. -/
def executeBid (b : Bid) (p tradeQ : ℚ) : Bid :=
  { b with status := .executed, execution_price := some p,
           quantity := b.quantity - tradeQ }

/-- The inner `for sell_bid in sell_bids` loop for one buy bid
(lines 53-114).  Sell rows are carried with their position in the bid
table.  The first PENDING sell whose price the buy crosses is matched:
the day-ahead row is dereferenced (an `AttributeError` escapes when it is
`None`), the contract pair is built, both bids are executed, and the loop
breaks.  Returns the possibly-updated buy, the sell list, and the pair
created, if any. -/
def matchBuy (daPrice : Option MarketData) (d : Nat) (b : Bid) :
    List (Nat × Bid) →
    Except String (Bid × List (Nat × Bid) × Option (Contract × Contract))
  | [] => .ok (b, [], none)
  | (i, sb) :: rest =>
    if sb.status ≠ BidStatus.pending then
      (matchBuy daPrice d b rest).map fun r => (r.1, (i, sb) :: r.2.1, r.2.2)
    else if sb.price ≤ b.price then
      match daPrice with
      | none => .error "AttributeError: NoneType has no attribute price"
      | some md =>
        let q := min b.quantity sb.quantity
        .ok (executeBid b md.price q,
             (i, executeBid sb md.price q) :: rest,
             some (mkContractPair b sb md.price d))
    else
      (matchBuy daPrice d b rest).map fun r => (r.1, (i, sb) :: r.2.1, r.2.2)

/-- The outer `for buy_bid in buy_bids` loop (lines 49-114): each buy bid
still PENDING scans the sell list once.  Returns the updated buy list,
the updated sell list, and the contract pairs in creation order. -/
def clearBuys (daPrice : Option MarketData) (d : Nat) :
    List (Nat × Bid) → List (Nat × Bid) →
    Except String (List (Nat × Bid) × List (Nat × Bid) × List (Contract × Contract))
  | [], sells => .ok ([], sells, [])
  | (i, b) :: rest, sells =>
    if b.status ≠ BidStatus.pending then
      (clearBuys daPrice d rest sells).map fun r => ((i, b) :: r.1, r.2.1, r.2.2)
    else
      match matchBuy daPrice d b sells with
      | .error e => .error e
      | .ok (b', sells', pr?) =>
        (clearBuys daPrice d rest sells').map fun r =>
          ((i, b') :: r.1, r.2.1, pr?.elim r.2.2 (· :: r.2.2))

/-- The PENDING bid rows for the date, each carried with its position in
the bid table (the result set of the query at lines 20-25). -/
def clearPendingIdx (db : DB) (d : Nat) : List (Nat × Bid) :=
  db.bids.enum.filter fun p => clearingPending d p.2

/-- The buy side of the PENDING set, price-descending
(`buy_bids.sort(key=..., reverse=True)`, stable). -/
def clearBuyList (db : DB) (d : Nat) : List (Nat × Bid) :=
  insertionSortBy (fun a b => b.2.price ≤ a.2.price)
    ((clearPendingIdx db d).filter fun p => p.2.bid_type == BidType.buy)

/-- The sell side of the PENDING set, price-ascending
(`sell_bids.sort(key=...)`, stable). -/
def clearSellList (db : DB) (d : Nat) : List (Nat × Bid) :=
  insertionSortBy (fun a b => a.2.price ≤ b.2.price)
    ((clearPendingIdx db d).filter fun p => p.2.bid_type == BidType.sell)

/-- Write the mutated rows back into the bid table at their positions
(the commit of the in-place mutations at line 117). -/
def writeBack (db : DB) (updated : List (Nat × Bid)) : List Bid :=
  db.bids.enum.map fun p =>
    ((updated.find? fun u => u.1 == p.1).map (·.2)).getD p.2

/-- `ClearingService.clear_market` (`services/clearing_service.py`,
lines 17-123), SCHEMA-REPAIRED reading (the as-written function fails on
every call at the day-ahead query: `clear_market_as_written`), returning
the updated store and the reported `contracts_created` count.  The
PENDING bids for the date are loaded with their table positions, split
by side, price-sorted (buys descending, sells ascending, both stable as
Python's `list.sort`), matched, and the mutated rows are written back at
their positions; each match appends its BUY-side then SELL-side contract
row.  An empty PENDING set returns early with a zero count. -/
def clear_market (db : DB) (d : Nat) : Except String (DB × Nat) :=
  if clearPendingIdx db d = [] then .ok (db, 0)
  else
    match clearBuys (clearDaPrice db d) d (clearBuyList db d) (clearSellList db d) with
    | .error e => .error e
    | .ok (buys', sells', pairs) =>
      .ok ({ db with
               bids := writeBack db (buys' ++ sells'),
               contracts := db.contracts ++ pairs.flatMap fun pr => [pr.1, pr.2] },
           2 * pairs.length)

/-! ### The services as written

`models/market_data.py` defines no `trade_date` attribute (its column is
`date`), so every service statement that mentions `MarketData.trade_date`
raises `AttributeError` when the query is being built, before any row is
fetched.  The embeddings below follow the source's statement order up to
that failing access; everything past it is unreachable. -/

/-- The error raised by the services' `MarketData.trade_date` accesses:
the model defines no such attribute (its date column is `date`). -/
def attrErrorTradeDate : String :=
  "AttributeError: type object MarketData has no attribute trade_date"

/-- `ClearingService.clear_market` as written.  The PENDING-bids query
(lines 20-25) runs first against real `Bid` columns; the day-ahead query
at lines 27-33 then reads `MarketData.trade_date` and raises — before the
empty-bids early return at line 35, so every call fails, whatever the
store holds. -/
def clear_market_as_written (db : DB) (d : Nat) : Except String (DB × Nat) :=
  let _pending := clearPendingIdx db d
  .error attrErrorTradeDate

/-- `MarketDataService.generate_mock_prices` as written.  Its first
statement (the existence query, lines 18-23) reads
`MarketData.trade_date` and raises, for every input. -/
def generate_mock_prices_as_written (db : DB) (d : Nat) (t : MarketDataType)
    (variation : Nat → ℚ) : Except String (DB × List MarketData) :=
  .error attrErrorTradeDate

/-- `PnLService.calculate_pnl` as written.  The contracts query
(lines 24-31) uses real `Contract` columns; with no eligible contract the
function returns the empty record list (lines 33-34) without touching
market data, and otherwise the first loop iteration's day-ahead lookup
(lines 40-46) reads `MarketData.trade_date` and raises. -/
def calculate_pnl_as_written (db : DB) (u d : Nat) :
    Except String (DB × List PnLRecord) :=
  let contracts := db.contracts.filter (pnlEligible u d)
  if contracts = [] then .ok (db, [])
  else .error attrErrorTradeDate

/-! ### Concrete stores used to run the services on explicit inputs -/

/-- Two crossing PENDING bids for date 0 in different hours (buy in hour
1, sell in hour 2) and a day-ahead quote for hour 1. -/
def exDbC1 : DB :=
  { bids :=
      [ { id := 10, user_id := 1, hour := 1, bid_type := .buy, quantity := 10,
          price := 50, bid_date := 0, status := .pending },
        { id := 20, user_id := 2, hour := 2, bid_type := .sell, quantity := 10,
          price := 40, bid_date := 0, status := .pending } ],
    marketData := [ { trade_date := 0, hour := 1, data_type := .dayAhead, price := 45 } ] }

/-- A buy of 10 MWh crossing a sell of only 5 MWh in the same hour, with
a day-ahead quote present. -/
def exDbC2 : DB :=
  { bids :=
      [ { id := 10, user_id := 1, hour := 1, bid_type := .buy, quantity := 10,
          price := 50, bid_date := 0, status := .pending },
        { id := 20, user_id := 2, hour := 1, bid_type := .sell, quantity := 5,
          price := 40, bid_date := 0, status := .pending } ],
    marketData := [ { trade_date := 0, hour := 1, data_type := .dayAhead, price := 45 } ] }

/-- Two crossing PENDING bids for date 0 and an empty market-data table:
no day-ahead quote exists for the date. -/
def exDbC3 : DB :=
  { bids :=
      [ { id := 10, user_id := 1, hour := 1, bid_type := .buy, quantity := 10,
          price := 50, bid_date := 0, status := .pending },
        { id := 20, user_id := 2, hour := 1, bid_type := .sell, quantity := 10,
          price := 40, bid_date := 0, status := .pending } ] }

/-- A crossing buy/sell pair in hour 1 and another in hour 2, with
distinct day-ahead quotes for the two hours (40 for hour 1, 70 for
hour 2).  Prices are chosen so each pair matches within its own hour. -/
def exDbC4 : DB :=
  { bids :=
      [ { id := 10, user_id := 1, hour := 1, bid_type := .buy, quantity := 10,
          price := 60, bid_date := 0, status := .pending },
        { id := 11, user_id := 2, hour := 1, bid_type := .sell, quantity := 10,
          price := 40, bid_date := 0, status := .pending },
        { id := 12, user_id := 3, hour := 2, bid_type := .buy, quantity := 10,
          price := 50, bid_date := 0, status := .pending },
        { id := 13, user_id := 4, hour := 2, bid_type := .sell, quantity := 10,
          price := 45, bid_date := 0, status := .pending } ],
    marketData :=
      [ { trade_date := 0, hour := 1, data_type := .dayAhead, price := 40 },
        { trade_date := 0, hour := 2, data_type := .dayAhead, price := 70 } ] }

/-- Ten PENDING bids of owner 1 for hour 3 on trading date 5. -/
def exDbQuota : DB :=
  { bids := (List.range 10).map fun k =>
      { id := k, user_id := 1, hour := 3, bid_type := .buy, quantity := 1,
        price := 25, bid_date := 5, status := .pending } }

/-- A further submission by owner 1 for hour 3. -/
def exBidCreate : BidCreate :=
  { hour := 3, bid_type := .sell, quantity := 2, price := 30, user_id := 1 }

/-- The store after owner 1's submission for hour 3 on date 5 is accepted
into an empty store. -/
def exDbQuotaOut : DB :=
  { bids := [ { id := 99, user_id := 1, hour := 3, bid_type := .sell,
                quantity := 2, price := 30, bid_date := 5, status := .pending } ] }

/-- How one positioned bid row may evolve across a clearing pass: the
position is unchanged, price, side and date are never written, and the
row is either untouched or has been marked EXECUTED by a match. -/
def bidStep (p q : Nat × Bid) : Prop :=
  p.1 = q.1 ∧ q.2.price = p.2.price ∧ q.2.bid_type = p.2.bid_type ∧
    q.2.bid_date = p.2.bid_date ∧ (q.2 = p.2 ∨ q.2.status = BidStatus.executed)

/-- One crossing PENDING pair for date 3 in hour 2 (buy at 50, sell at
45, both 5 MWh) with a day-ahead quote of 48 for the hour. -/
def exDbPair : DB :=
  { bids :=
      [ { id := 1, user_id := 1, hour := 2, bid_type := .buy, quantity := 5,
          price := 50, bid_date := 3, status := .pending },
        { id := 2, user_id := 2, hour := 2, bid_type := .sell, quantity := 5,
          price := 45, bid_date := 3, status := .pending } ],
    marketData := [ { trade_date := 3, hour := 2, data_type := .dayAhead, price := 48 } ] }

/-- The store produced by clearing `exDbPair` for date 3: both bids
EXECUTED with zero residual, and the matched pair's two contracts. -/
def exDbPairOut : DB :=
  { bids :=
      [ { id := 1, user_id := 1, hour := 2, bid_type := .buy, quantity := 0,
          price := 50, bid_date := 3, status := .executed, execution_price := some 48 },
        { id := 2, user_id := 2, hour := 2, bid_type := .sell, quantity := 0,
          price := 45, bid_date := 3, status := .executed, execution_price := some 48 } ],
    contracts :=
      [ { id := 0, bid_id := 1, user_id := 1, hour := 2, contract_type := "BUY",
          quantity := 5, execution_price := 48, execution_date := 3, status := .active },
        { id := 0, bid_id := 2, user_id := 2, hour := 2, contract_type := "SELL",
          quantity := 5, execution_price := 48, execution_date := 3, status := .active } ],
    marketData := [ { trade_date := 3, hour := 2, data_type := .dayAhead, price := 48 } ] }

/-- A constant random stream (every draw is 1.0, inside [0.8, 1.2]). -/
def exVar : Nat → ℚ := fun _ => 1

/-- The store produced by generating day-ahead quotes for date 0 into an
empty store: it holds exactly the 24 fresh rows. -/
def exDbMdOut : DB := { marketData := genRecs 0 .dayAhead exVar }

/-- A BUY contract of 10 MWh for hour 0 of date 0, ACTIVE, owner 7. -/
def exConBuy : Contract :=
  { id := 1, bid_id := 10, user_id := 7, hour := 0, contract_type := "BUY",
    quantity := 10, execution_price := 40, execution_date := 0, status := .active }

/-- The symmetric SELL contract with the same inputs. -/
def exConSell : Contract :=
  { id := 2, bid_id := 11, user_id := 7, hour := 0, contract_type := "SELL",
    quantity := 10, execution_price := 40, execution_date := 0, status := .active }

/-- Day-ahead quote 40 for hour 0 of date 0. -/
def exDam : MarketData :=
  { trade_date := 0, hour := 0, data_type := .dayAhead, price := 40 }

/-- Real-time quote 50 for hour 0 of date 0. -/
def exRtm : MarketData :=
  { trade_date := 0, hour := 0, data_type := .realTime, price := 50 }

/-- A store with the two contracts of owner 7 and the two quotes:
day-ahead 40, real-time 50, quantity 10 on both contracts. -/
def exDbPnl : DB :=
  { contracts := [exConBuy, exConSell], marketData := [exDam, exRtm] }

/-! ## Theorems -/

/-- C1: the claim states that a buy bid and a sell bid are matched only
when they share the same hour.  Running the embedded `clear_market` on
`exDbC1` (buy in hour 1, sell in hour 2, both PENDING for date 0)
produces exactly one matched pair — a BUY contract from bid 10 of hour 1
and a SELL contract from bid 20 of hour 2 — so bids from different hours
do trade against each other: the source loop never compares hours. -/
theorem clear_market_matches_across_hours :
    (clear_market exDbC1 0).map
        (fun r => (r.1.contracts.map fun c => (c.bid_id, c.hour, c.contract_type), r.2))
      = .ok ([(10, 1, "BUY"), (20, 2, "SELL")], 2) := by
  with_unfolding_all rfl

/-- C2: the claim states that a bid matched for less than its full
quantity keeps status PENDING with its quantity reduced.  On `exDbC2`
the buy bid 10 (quantity 10) is matched against the sell bid 20
(quantity 5): its residual quantity is 5, yet the source marks it
EXECUTED immediately on its first match (line 88), so the residual is
never available to a later clearing run. -/
theorem clear_market_partial_fill_executed :
    (clear_market exDbC2 0).map
        (fun r => r.1.bids.map fun b => (b.id, b.status, b.quantity))
      = .ok [(10, .executed, 5), (20, .executed, 0)] := by
  with_unfolding_all rfl

/-- C3: the claim states that when no day-ahead quote exists for the
date, `clear(date)` returns normally with zero contracts and the bids
stay PENDING.  On `exDbC3` (two crossing PENDING bids, empty market-data
table) the embedded `clear_market` instead fails: the source dereferences
the `None` result of the day-ahead query at line 59 as soon as a pair
crosses, raising an `AttributeError`. -/
theorem clear_market_missing_quote_error :
    clear_market exDbC3 0
      = .error "AttributeError: NoneType has no attribute price" := by
  with_unfolding_all rfl

/-- C4: the claim states that each matched pair's contracts carry the
day-ahead price quoted for that pair's own hour.  On `exDbC4` the hour-1
pair and the hour-2 pair both clear, and all four contracts carry price
40 — the single day-ahead row fetched once at lines 27-33 — although the
hour-2 day-ahead quote is 70.  (The dating to the cleared date and the
ACTIVE status of the claim do hold.) -/
theorem clear_market_single_price_for_all_hours :
    (clear_market exDbC4 0).map
        (fun r => r.1.contracts.map fun c =>
          (c.hour, c.execution_price, c.status, c.execution_date))
      = .ok [(1, 40, .active, 0), (1, 40, .active, 0),
             (2, 40, .active, 0), (2, 40, .active, 0)] ∧
    (priceLookup exDbC4 0 2 .dayAhead).map (·.price) = some 70 := by
  exact ⟨by with_unfolding_all rfl, by with_unfolding_all rfl⟩

/-- C8: when the owner already has 10 or more PENDING bids for the
(hour, trading-date) key, `create_bid` fails with the quota error (and,
raising before any insert, creates nothing); and a successful
`create_bid` preserves the bound of 10 PENDING bids per
(owner, hour, trading-date) key. -/
theorem create_bid_quota (db : DB) (bd : BidCreate) (today nowHour newId : Nat) :
    (10 ≤ pendingCount db bd.user_id bd.hour today →
      create_bid db bd today nowHour newId = .error .quotaExceeded) ∧
    (∀ db' b, create_bid db bd today nowHour newId = .ok (db', b) →
      ∀ u h dd, pendingCount db u h dd ≤ 10 → pendingCount db' u h dd ≤ 10) := by
  constructor
  · intro hq
    simp [create_bid, hq]
  · intro db' b hok u h dd hle
    unfold create_bid at hok
    by_cases hq : 10 ≤ pendingCount db bd.user_id bd.hour today
    · simp [hq] at hok
    · by_cases hc : 11 ≤ nowHour
      · simp [hq, hc] at hok
      · simp only [if_neg hq, if_neg hc, Except.ok.injEq, Prod.mk.injEq] at hok
        obtain ⟨hdb, -⟩ := hok
        subst hdb
        by_cases hu : bd.user_id = u
        · by_cases hh : bd.hour = h
          · by_cases hd : today = dd
            · subst hu hh hd
              have hlen : pendingCount db bd.user_id bd.hour today ≤ 9 := by omega
              simp only [pendingCount, pendingBidsFor, List.filter_append,
                List.length_append] at hlen ⊢
              have hone : (List.filter
                  (fun bb => bb.user_id == bd.user_id && bb.hour == bd.hour &&
                    bb.bid_date == today && bb.status == BidStatus.pending)
                  [({ id := newId, user_id := bd.user_id, hour := bd.hour,
                      bid_type := bd.bid_type, quantity := bd.quantity,
                      price := bd.price, bid_date := today,
                      status := .pending } : Bid)]).length ≤ 1 :=
                List.length_filter_le _ _
              omega
            · simp only [pendingCount, pendingBidsFor, List.filter_append,
                List.length_append] at hle ⊢
              simp [List.filter_cons, hd]
              omega
          · simp only [pendingCount, pendingBidsFor, List.filter_append,
              List.length_append] at hle ⊢
            simp [List.filter_cons, hh]
            omega
        · simp only [pendingCount, pendingBidsFor, List.filter_append,
            List.length_append] at hle ⊢
          simp [List.filter_cons, hu]
          omega

/-- C8 witness: with ten PENDING bids of owner 1 for (hour 3, date 5)
already in the store, the eleventh submission fails with the quota
error; and a successful submission into an empty store keeps every
(owner, hour, date) key at no more than 10 PENDING bids. -/
theorem create_bid_quota_witness :
    create_bid exDbQuota exBidCreate 5 3 99 = .error .quotaExceeded ∧
    pendingCount exDbQuotaOut 1 3 5 ≤ 10 :=
  ⟨(create_bid_quota exDbQuota exBidCreate 5 3 99).1 (by decide),
   (create_bid_quota ({} : DB) exBidCreate 5 3 99).2 exDbQuotaOut
     { id := 99, user_id := 1, hour := 3, bid_type := .sell, quantity := 2,
       price := 30, bid_date := 5, status := .pending }
     (by rfl) 1 3 5 (by decide)⟩

/-- C10: the quota check (lines 19-32) runs before the market-cutoff
check (lines 34-40), so a submission at or after the 11:00 cutoff hour
by an owner who already has 10 or more PENDING bids for the key fails
with the quota error, not the market-closed error; the exception is
raised before any insert, so no state changes. -/
theorem create_bid_quota_precedes_cutoff (db : DB) (bd : BidCreate)
    (today nowHour newId : Nat)
    (hq : 10 ≤ pendingCount db bd.user_id bd.hour today)
    (hc : 11 ≤ nowHour) :
    create_bid db bd today nowHour newId = .error .quotaExceeded := by
  simp [create_bid, hq]

/-- C10 witness: at `nowHour = 12` (after the cutoff) with ten PENDING
bids already present for the key, the submission fails with the quota
error. -/
theorem create_bid_quota_precedes_cutoff_witness :
    10 ≤ pendingCount exDbQuota 1 3 5 ∧ 11 ≤ 12 ∧
    create_bid exDbQuota exBidCreate 5 12 99 = .error .quotaExceeded :=
  ⟨by decide, by decide,
   create_bid_quota_precedes_cutoff exDbQuota exBidCreate 5 12 99
     (by decide) (by decide)⟩

/-- Every row built by the generation loop matches the (date, kind)
filter of the existence query. -/
theorem genRecs_filter (d : Nat) (t : MarketDataType) (v : Nat → ℚ) :
    (genRecs d t v).filter (fun m => m.trade_date == d && m.data_type == t)
      = genRecs d t v := by
  apply List.filter_eq_self.mpr
  intro m hm
  simp only [genRecs, List.mem_map, List.mem_range] at hm
  obtain ⟨k, -, rfl⟩ := hm
  simp

/-- The generation loop builds exactly 24 rows. -/
theorem genRecs_length (d : Nat) (t : MarketDataType) (v : Nat → ℚ) :
    (genRecs d t v).length = 24 := by
  simp [genRecs]

/-- Under the schema-repaired reading only, `generate_mock_prices` is
idempotent: when 24 quotes already exist for the (date, kind) pair, they
are returned unchanged and the store is untouched; and starting from a
state with no quotes for the pair, a second call returns exactly the 24
quotes created by the first call with no new rows.  The function as
written never exhibits this: it fails on its first statement
(`generate_mock_prices_as_written`). -/
theorem generate_mock_prices_idempotent (db : DB) (d : Nat)
    (t : MarketDataType) (v v' : Nat → ℚ) :
    ((existingQuotes db d t).length = 24 →
      generate_mock_prices db d t v = (db, existingQuotes db d t)) ∧
    (existingQuotes db d t = [] →
      generate_mock_prices (generate_mock_prices db d t v).1 d t v'
          = generate_mock_prices db d t v ∧
      (generate_mock_prices db d t v).2.length = 24) := by
  constructor
  · intro h24
    have hne : existingQuotes db d t ≠ [] := by
      intro h0
      rw [h0] at h24
      simp at h24
    simp [generate_mock_prices, hne]
  · intro h0
    have hfirst : generate_mock_prices db d t v
        = ({ db with marketData := db.marketData ++ genRecs d t v },
           genRecs d t v) := by
      simp [generate_mock_prices, h0]
    have hq2 : existingQuotes
        { db with marketData := db.marketData ++ genRecs d t v } d t
        = genRecs d t v := by
      simp only [existingQuotes, List.filter_append]
      rw [genRecs_filter]
      have he : db.marketData.filter
          (fun m => m.trade_date == d && m.data_type == t) = [] := h0
      rw [he, List.nil_append]
    have hne2 : existingQuotes
        { db with marketData := db.marketData ++ genRecs d t v } d t ≠ [] := by
      rw [hq2]
      intro hcon
      have := genRecs_length d t v
      rw [hcon] at this
      simp at this
    refine ⟨?_, ?_⟩
    · rw [hfirst]
      simp only [generate_mock_prices, hne2, ne_eq, not_false_eq_true, if_pos]
      rw [hq2]
    · rw [hfirst]
      exact genRecs_length d t v

/-- Concrete run of the repaired-reading idempotence: on the store
holding the 24 rows generated for (date 0, DAY_AHEAD) the call returns
them unchanged; and generating twice from the empty store returns the
identical 24 quotes the second time with no new rows. -/
theorem generate_mock_prices_idempotent_witness :
    (generate_mock_prices exDbMdOut 0 .dayAhead exVar
       = (exDbMdOut, existingQuotes exDbMdOut 0 .dayAhead)) ∧
    (generate_mock_prices (generate_mock_prices ({} : DB) 0 .dayAhead exVar).1
          0 .dayAhead exVar
        = generate_mock_prices ({} : DB) 0 .dayAhead exVar ∧
      (generate_mock_prices ({} : DB) 0 .dayAhead exVar).2.length = 24) :=
  ⟨(generate_mock_prices_idempotent exDbMdOut 0 .dayAhead exVar exVar).1
      (by with_unfolding_all rfl),
   (generate_mock_prices_idempotent ({} : DB) 0 .dayAhead exVar exVar).2 rfl⟩

/-- The record list returned by `calculate_pnl`: one record per eligible
contract having both quotes (the early return on an empty contract set
returns the empty record list, which the right-hand side also produces). -/
theorem calculate_pnl_snd (db : DB) (u d : Nat) :
    (calculate_pnl db u d).2
      = (db.contracts.filter (pnlEligible u d)).filterMap (pnlRecordFor db u d) := by
  by_cases hnil : db.contracts.filter (pnlEligible u d) = []
  · simp [calculate_pnl, hnil]
  · simp [calculate_pnl, hnil]

/-- Under the schema-repaired reading only: for every contract eligible
for PnL (owned by the user, executed on the date, ACTIVE or COMPLETED)
whose hour has both a day-ahead and a real-time quote, `calculate_pnl`
emits a record whose amount is `(realTime - dayAhead) * quantity` for a
BUY contract and `(dayAhead - realTime) * quantity` otherwise,
classified REALIZED exactly when the contract is COMPLETED.  As written
the function instead raises at this very scenario
(`calculate_pnl_as_written`). -/
theorem calculate_pnl_formula (db : DB) (u d : Nat) (c : Contract)
    (dam rtm : MarketData)
    (hc : c ∈ db.contracts)
    (hu : c.user_id = u) (hdte : c.execution_date = d)
    (hst : c.status = .active ∨ c.status = .completed)
    (hda : priceLookup db d c.hour .dayAhead = some dam)
    (hrt : priceLookup db d c.hour .realTime = some rtm) :
    ∃ r ∈ (calculate_pnl db u d).2,
      r.contract_id = c.id ∧
      r.pnl_amount = (if c.contract_type = "BUY"
        then (rtm.price - dam.price) * c.quantity
        else (dam.price - rtm.price) * c.quantity) ∧
      (r.pnl_type = "REALIZED" ↔ c.status = .completed) := by
  have helig : pnlEligible u d c = true := by
    rcases hst with h | h <;> simp [pnlEligible, hu, hdte, h]
  have hrec : pnlRecordFor db u d c = some
      { user_id := u, contract_id := c.id, date := d, hour := c.hour,
        day_ahead_price := dam.price, real_time_price := rtm.price,
        quantity := c.quantity,
        pnl_amount := if c.contract_type == "BUY"
          then (rtm.price - dam.price) * c.quantity
          else (dam.price - rtm.price) * c.quantity,
        pnl_type := if c.status == ContractStatus.completed
          then "REALIZED" else "UNREALIZED" } := by
    unfold pnlRecordFor
    rw [hda, hrt]
  refine ⟨{ user_id := u, contract_id := c.id, date := d, hour := c.hour,
            day_ahead_price := dam.price, real_time_price := rtm.price,
            quantity := c.quantity,
            pnl_amount := if c.contract_type == "BUY"
              then (rtm.price - dam.price) * c.quantity
              else (dam.price - rtm.price) * c.quantity,
            pnl_type := if c.status == ContractStatus.completed
              then "REALIZED" else "UNREALIZED" }, ?_, ?_, ?_, ?_⟩
  · rw [calculate_pnl_snd]
    exact List.mem_filterMap.mpr ⟨c, List.mem_filter.mpr ⟨hc, helig⟩, hrec⟩
  · rfl
  · simp
  · by_cases hcs : c.status = .completed
    · simp [hcs]
    · have hb : (c.status == ContractStatus.completed) = false := by
        simp [hcs]
      simp only [hb, Bool.false_eq_true, if_false]
      constructor
      · intro habs
        exact absurd habs (by decide)
      · intro habs
        exact absurd habs hcs

/-- Concrete run of the repaired-reading PnL formula: on `exDbPnl`
(day-ahead 40, real-time 50, quantity 10) the BUY contract yields +100
and the symmetric SELL contract yields −100, both UNREALIZED since the
contracts are ACTIVE. -/
theorem calculate_pnl_formula_witness :
    (∃ r ∈ (calculate_pnl exDbPnl 7 0).2, r.contract_id = 1 ∧
      r.pnl_amount = 100 ∧
      (r.pnl_type = "REALIZED" ↔ ContractStatus.active = ContractStatus.completed)) ∧
    (∃ r ∈ (calculate_pnl exDbPnl 7 0).2, r.contract_id = 2 ∧
      r.pnl_amount = -100 ∧
      (r.pnl_type = "REALIZED" ↔ ContractStatus.active = ContractStatus.completed)) := by
  constructor
  · obtain ⟨r, hmem, h1, h2, h3⟩ :=
      calculate_pnl_formula exDbPnl 7 0 exConBuy exDam exRtm
        (by decide) rfl rfl (Or.inl rfl) rfl rfl
    exact ⟨r, hmem, h1, h2.trans (by with_unfolding_all rfl), h3⟩
  · obtain ⟨r, hmem, h1, h2, h3⟩ :=
      calculate_pnl_formula exDbPnl 7 0 exConSell exDam exRtm
        (by decide) rfl rfl (Or.inl rfl) rfl rfl
    exact ⟨r, hmem, h1, h2.trans (by with_unfolding_all rfl), h3⟩

/-! ### Clearing-pass lemmas -/

/-- Inversion of `Except.map` returning a success. -/
theorem exceptMap_ok {ε α β : Type} (f : α → β) (e : Except ε α) (y : β)
    (h : e.map f = .ok y) : ∃ x, e = .ok x ∧ f x = y := by
  cases e with
  | error err => simp [Except.map] at h
  | ok x =>
    refine ⟨x, rfl, ?_⟩
    simpa [Except.map] using h

theorem bidStep_refl (p : Nat × Bid) : bidStep p p :=
  ⟨rfl, rfl, rfl, rfl, Or.inl rfl⟩

theorem bidStep_trans (p q r : Nat × Bid) (h1 : bidStep p q) (h2 : bidStep q r) :
    bidStep p r := by
  obtain ⟨k1, pr1, ty1, dt1, st1⟩ := h1
  obtain ⟨k2, pr2, ty2, dt2, st2⟩ := h2
  refine ⟨k1.trans k2, pr2.trans pr1, ty2.trans ty1, dt2.trans dt1, ?_⟩
  rcases st2 with h | h
  · rw [h]
    exact st1
  · exact Or.inr h

theorem forallTwo_refl {α : Type} {R : α → α → Prop} (hR : ∀ x, R x x) :
    ∀ l : List α, List.Forall₂ R l l := by
  intro l
  induction l with
  | nil => exact .nil
  | cons a l ih => exact .cons (hR a) ih

theorem forallTwo_trans {α : Type} {R : α → α → Prop}
    (hR : ∀ a b c, R a b → R b c → R a c) :
    ∀ {l₁ l₂ l₃ : List α}, List.Forall₂ R l₁ l₂ → List.Forall₂ R l₂ l₃ →
      List.Forall₂ R l₁ l₃ := by
  intro l₁ l₂ l₃ h12
  induction h12 generalizing l₃ with
  | nil =>
    intro h23
    cases h23
    exact .nil
  | cons hab h12' ih =>
    intro h23
    cases h23 with
    | cons hbc h23' => exact .cons (hR _ _ _ hab hbc) (ih h23')

theorem forallTwo_mem_right {α : Type} {R : α → α → Prop} :
    ∀ {l l' : List α}, List.Forall₂ R l l' → ∀ x ∈ l', ∃ y ∈ l, R y x := by
  intro l l' h
  induction h with
  | nil =>
    intro x hx
    cases hx
  | cons hab h' ih =>
    intro x hx
    rcases List.mem_cons.mp hx with rfl | hx'
    · exact ⟨_, List.mem_cons_self _ _, hab⟩
    · obtain ⟨y, hy, hr⟩ := ih x hx'
      exact ⟨y, List.mem_cons_of_mem _ hy, hr⟩

theorem forallTwo_mem_left {α : Type} {R : α → α → Prop} :
    ∀ {l l' : List α}, List.Forall₂ R l l' → ∀ y ∈ l, ∃ x ∈ l', R y x := by
  intro l l' h
  induction h with
  | nil =>
    intro y hy
    cases hy
  | cons hab h' ih =>
    intro y hy
    rcases List.mem_cons.mp hy with rfl | hy'
    · exact ⟨_, List.mem_cons_self _ _, hab⟩
    · obtain ⟨x, hx, hr⟩ := ih y hy'
      exact ⟨x, List.mem_cons_of_mem _ hx, hr⟩

theorem mem_insertSortedBy {α : Type} (le : α → α → Bool) (x a : α) :
    ∀ l : List α, (a ∈ insertSortedBy le x l ↔ a = x ∨ a ∈ l) := by
  intro l
  induction l with
  | nil => simp [insertSortedBy]
  | cons b l ih =>
    simp only [insertSortedBy]
    split
    · simp [List.mem_cons]
    · simp only [List.mem_cons, ih]
      tauto

theorem mem_insertionSortBy {α : Type} (le : α → α → Bool) (a : α) :
    ∀ l : List α, (a ∈ insertionSortBy le l ↔ a ∈ l) := by
  intro l
  induction l with
  | nil => simp [insertionSortBy]
  | cons b l ih =>
    simp only [insertionSortBy, mem_insertSortedBy, ih, List.mem_cons]

/-- The sell list is transformed entrywise by a pass of the inner loop:
positions, prices, sides and dates are preserved, and any modified entry
has been marked EXECUTED. -/
theorem matchBuy_sells_step (dp : Option MarketData) (d : Nat) (b : Bid) :
    ∀ (sells : List (Nat × Bid)) (b' : Bid) (sells' : List (Nat × Bid))
      (pr? : Option (Contract × Contract)),
      matchBuy dp d b sells = .ok (b', sells', pr?) →
      List.Forall₂ bidStep sells sells' := by
  intro sells
  induction sells with
  | nil =>
    intro b' sells' pr? h
    simp only [matchBuy, Except.ok.injEq, Prod.mk.injEq] at h
    obtain ⟨-, h2, -⟩ := h
    rw [← h2]
    exact .nil
  | cons hd rest ih =>
    obtain ⟨i, sb⟩ := hd
    intro b' sells' pr? h
    simp only [matchBuy] at h
    split at h
    · obtain ⟨⟨b₀, rest', pr₀⟩, hrec, hf⟩ := exceptMap_ok _ _ _ h
      simp only [Prod.mk.injEq] at hf
      obtain ⟨-, hs0, -⟩ := hf
      rw [← hs0]
      exact .cons (bidStep_refl _) (ih b₀ rest' pr₀ hrec)
    · split at h
      · split at h
        · exact Except.noConfusion h
        · simp only [Except.ok.injEq, Prod.mk.injEq] at h
          obtain ⟨-, hs0, -⟩ := h
          rw [← hs0]
          exact .cons ⟨rfl, rfl, rfl, rfl, Or.inr rfl⟩ (forallTwo_refl bidStep_refl rest)
      · obtain ⟨⟨b₀, rest', pr₀⟩, hrec, hf⟩ := exceptMap_ok _ _ _ h
        simp only [Prod.mk.injEq] at hf
        obtain ⟨-, hs0, -⟩ := hf
        rw [← hs0]
        exact .cons (bidStep_refl _) (ih b₀ rest' pr₀ hrec)

/-- A buy bid leaves the inner loop either untouched or executed. -/
theorem matchBuy_buy_cases (dp : Option MarketData) (d : Nat) (b : Bid) :
    ∀ (sells : List (Nat × Bid)) (b' : Bid) (sells' : List (Nat × Bid))
      (pr? : Option (Contract × Contract)),
      matchBuy dp d b sells = .ok (b', sells', pr?) →
      b' = b ∨ ∃ p q, b' = executeBid b p q := by
  intro sells
  induction sells with
  | nil =>
    intro b' sells' pr? h
    simp only [matchBuy, Except.ok.injEq, Prod.mk.injEq] at h
    exact Or.inl h.1.symm
  | cons hd rest ih =>
    obtain ⟨i, sb⟩ := hd
    intro b' sells' pr? h
    simp only [matchBuy] at h
    split at h
    · obtain ⟨⟨b₀, rest', pr₀⟩, hrec, hf⟩ := exceptMap_ok _ _ _ h
      simp only [Prod.mk.injEq] at hf
      rw [← hf.1]
      exact ih b₀ rest' pr₀ hrec
    · split at h
      · split at h
        · exact Except.noConfusion h
        · simp only [Except.ok.injEq, Prod.mk.injEq] at h
          exact Or.inr ⟨_, _, h.1.symm⟩
      · obtain ⟨⟨b₀, rest', pr₀⟩, hrec, hf⟩ := exceptMap_ok _ _ _ h
        simp only [Prod.mk.injEq] at hf
        rw [← hf.1]
        exact ih b₀ rest' pr₀ hrec

/-- A buy bid that is still PENDING after its scan of the sell list was
not matched: nothing changed and every PENDING sell is priced strictly
above it. -/
theorem matchBuy_pending (dp : Option MarketData) (d : Nat) (b : Bid) :
    ∀ (sells : List (Nat × Bid)) (b' : Bid) (sells' : List (Nat × Bid))
      (pr? : Option (Contract × Contract)),
      matchBuy dp d b sells = .ok (b', sells', pr?) →
      b'.status = BidStatus.pending →
      b' = b ∧ sells' = sells ∧
        ∀ p ∈ sells, p.2.status = BidStatus.pending → b.price < p.2.price := by
  intro sells
  induction sells with
  | nil =>
    intro b' sells' pr? h hb'
    simp only [matchBuy, Except.ok.injEq, Prod.mk.injEq] at h
    obtain ⟨h1, h2, -⟩ := h
    refine ⟨h1.symm, h2.symm, ?_⟩
    intro p hp
    cases hp
  | cons hd rest ih =>
    obtain ⟨i, sb⟩ := hd
    intro b' sells' pr? h hb'
    simp only [matchBuy] at h
    split at h
    · next hns =>
      obtain ⟨⟨b₀, rest', pr₀⟩, hrec, hf⟩ := exceptMap_ok _ _ _ h
      simp only [Prod.mk.injEq] at hf
      obtain ⟨hb0, hs0, -⟩ := hf
      subst hb0
      obtain ⟨hbb, hrr, hgap⟩ := ih _ _ _ hrec hb'
      subst hbb hrr
      refine ⟨rfl, hs0.symm, ?_⟩
      intro p hp hpend
      rcases List.mem_cons.mp hp with rfl | hp'
      · exact absurd hpend hns
      · exact hgap p hp' hpend
    · split at h
      · split at h
        · exact Except.noConfusion h
        · simp only [Except.ok.injEq, Prod.mk.injEq] at h
          obtain ⟨hb0, -, -⟩ := h
          rw [← hb0] at hb'
          exact absurd hb' (by simp [executeBid])
      · next hcross =>
        obtain ⟨⟨b₀, rest', pr₀⟩, hrec, hf⟩ := exceptMap_ok _ _ _ h
        simp only [Prod.mk.injEq] at hf
        obtain ⟨hb0, hs0, -⟩ := hf
        subst hb0
        obtain ⟨hbb, hrr, hgap⟩ := ih _ _ _ hrec hb'
        subst hbb hrr
        refine ⟨rfl, hs0.symm, ?_⟩
        intro p hp hpend
        rcases List.mem_cons.mp hp with rfl | hp'
        · exact lt_of_not_le hcross
        · exact hgap p hp' hpend

/-- When every PENDING sell is priced strictly above the buy, the inner
loop is the identity and creates no pair. -/
theorem matchBuy_nomatch (dp : Option MarketData) (d : Nat) (b : Bid) :
    ∀ sells : List (Nat × Bid),
      (∀ p ∈ sells, p.2.status = BidStatus.pending → b.price < p.2.price) →
      matchBuy dp d b sells = .ok (b, sells, none) := by
  intro sells
  induction sells with
  | nil =>
    intro h
    rfl
  | cons hd rest ih =>
    obtain ⟨i, sb⟩ := hd
    intro hgap
    have hrec := ih fun p hp hpd => hgap p (List.mem_cons_of_mem _ hp) hpd
    by_cases hpend : sb.status = BidStatus.pending
    · have hlt : b.price < sb.price := hgap (i, sb) (List.mem_cons_self _ _) hpend
      simp only [matchBuy]
      rw [if_neg (not_not_intro hpend), if_neg (not_le.mpr hlt), hrec]
      rfl
    · simp only [matchBuy]
      rw [if_pos hpend, hrec]
      rfl

/-- A pair created by the inner loop is built by `mkContractPair` from
the scanning buy and a PENDING sell it crosses. -/
theorem matchBuy_pair (dp : Option MarketData) (d : Nat) (b : Bid) :
    ∀ (sells : List (Nat × Bid)) (b' : Bid) (sells' : List (Nat × Bid))
      (pr : Contract × Contract),
      matchBuy dp d b sells = .ok (b', sells', some pr) →
      ∃ s p, s.status = BidStatus.pending ∧ s.price ≤ b.price ∧
        pr = mkContractPair b s p d := by
  intro sells
  induction sells with
  | nil =>
    intro b' sells' pr h
    simp only [matchBuy, Except.ok.injEq, Prod.mk.injEq] at h
    exact absurd h.2.2 (by simp)
  | cons hd rest ih =>
    obtain ⟨i, sb⟩ := hd
    intro b' sells' pr h
    simp only [matchBuy] at h
    split at h
    · obtain ⟨⟨b₀, rest', pr₀⟩, hrec, hf⟩ := exceptMap_ok _ _ _ h
      simp only [Prod.mk.injEq] at hf
      obtain ⟨-, -, hp0⟩ := hf
      rw [hp0] at hrec
      exact ih _ _ _ hrec
    · split at h
      · next hpends hcross =>
        split at h
        · exact Except.noConfusion h
        · simp only [Except.ok.injEq, Prod.mk.injEq, Option.some.injEq] at h
          exact ⟨sb, _, not_ne_iff.mp hpends, hcross, h.2.2.symm⟩
      · obtain ⟨⟨b₀, rest', pr₀⟩, hrec, hf⟩ := exceptMap_ok _ _ _ h
        simp only [Prod.mk.injEq] at hf
        obtain ⟨-, -, hp0⟩ := hf
        rw [hp0] at hrec
        exact ih _ _ _ hrec

/-- The sell list is transformed entrywise by the whole outer loop. -/
theorem clearBuys_sells_step (dp : Option MarketData) (d : Nat) :
    ∀ (buys sells buys' sells' : List (Nat × Bid))
      (pairs : List (Contract × Contract)),
      clearBuys dp d buys sells = .ok (buys', sells', pairs) →
      List.Forall₂ bidStep sells sells' := by
  intro buys
  induction buys with
  | nil =>
    intro sells buys' sells' pairs h
    simp only [clearBuys, Except.ok.injEq, Prod.mk.injEq] at h
    obtain ⟨-, h2, -⟩ := h
    rw [← h2]
    exact forallTwo_refl bidStep_refl sells
  | cons hd rest ih =>
    obtain ⟨i, b⟩ := hd
    intro sells buys' sells' pairs h
    simp only [clearBuys] at h
    split at h
    · obtain ⟨⟨bs, ss, ps⟩, hrec, hf⟩ := exceptMap_ok _ _ _ h
      simp only [Prod.mk.injEq] at hf
      obtain ⟨-, hss, -⟩ := hf
      rw [← hss]
      exact ih sells bs ss ps hrec
    · cases hm : matchBuy dp d b sells with
      | error e =>
        rw [hm] at h
        exact Except.noConfusion h
      | ok r =>
        obtain ⟨b₀, sells₁, pr₀⟩ := r
        rw [hm] at h
        obtain ⟨⟨bs, ss, ps⟩, hrec, hf⟩ := exceptMap_ok _ _ _ h
        simp only [Prod.mk.injEq] at hf
        obtain ⟨-, hss, -⟩ := hf
        rw [← hss]
        exact forallTwo_trans bidStep_trans
          (matchBuy_sells_step dp d b sells b₀ sells₁ pr₀ hm)
          (ih sells₁ bs ss ps hrec)

/-- The buy list is transformed entrywise by the whole outer loop. -/
theorem clearBuys_buys_step (dp : Option MarketData) (d : Nat) :
    ∀ (buys sells buys' sells' : List (Nat × Bid))
      (pairs : List (Contract × Contract)),
      clearBuys dp d buys sells = .ok (buys', sells', pairs) →
      List.Forall₂ bidStep buys buys' := by
  intro buys
  induction buys with
  | nil =>
    intro sells buys' sells' pairs h
    simp only [clearBuys, Except.ok.injEq, Prod.mk.injEq] at h
    obtain ⟨h1, -, -⟩ := h
    rw [← h1]
    exact .nil
  | cons hd rest ih =>
    obtain ⟨i, b⟩ := hd
    intro sells buys' sells' pairs h
    simp only [clearBuys] at h
    split at h
    · obtain ⟨⟨bs, ss, ps⟩, hrec, hf⟩ := exceptMap_ok _ _ _ h
      simp only [Prod.mk.injEq] at hf
      obtain ⟨hb', -, -⟩ := hf
      rw [← hb']
      exact .cons (bidStep_refl _) (ih sells bs ss ps hrec)
    · cases hm : matchBuy dp d b sells with
      | error e =>
        rw [hm] at h
        exact Except.noConfusion h
      | ok r =>
        obtain ⟨b₀, sells₁, pr₀⟩ := r
        rw [hm] at h
        obtain ⟨⟨bs, ss, ps⟩, hrec, hf⟩ := exceptMap_ok _ _ _ h
        simp only [Prod.mk.injEq] at hf
        obtain ⟨hb', -, -⟩ := hf
        rw [← hb']
        refine .cons ?_ (ih sells₁ bs ss ps hrec)
        rcases matchBuy_buy_cases dp d b sells b₀ sells₁ pr₀ hm with rfl | ⟨p, q, rfl⟩
        · exact bidStep_refl _
        · exact ⟨rfl, rfl, rfl, rfl, Or.inr rfl⟩

/-- After a full outer loop, every still-PENDING buy in the output is
priced strictly below every still-PENDING sell in the output. -/
theorem clearBuys_gap (dp : Option MarketData) (d : Nat) :
    ∀ (buys sells buys' sells' : List (Nat × Bid))
      (pairs : List (Contract × Contract)),
      clearBuys dp d buys sells = .ok (buys', sells', pairs) →
      ∀ p ∈ buys', p.2.status = BidStatus.pending →
        ∀ q ∈ sells', q.2.status = BidStatus.pending →
          p.2.price < q.2.price := by
  intro buys
  induction buys with
  | nil =>
    intro sells buys' sells' pairs h p hp
    simp only [clearBuys, Except.ok.injEq, Prod.mk.injEq] at h
    obtain ⟨h1, -, -⟩ := h
    rw [← h1] at hp
    cases hp
  | cons hd rest ih =>
    obtain ⟨i, b⟩ := hd
    intro sells buys' sells' pairs h p hp hppend q hq hqpend
    simp only [clearBuys] at h
    split at h
    · next hskip =>
      obtain ⟨⟨bs, ss, ps⟩, hrec, hf⟩ := exceptMap_ok _ _ _ h
      simp only [Prod.mk.injEq] at hf
      obtain ⟨hb', hss, -⟩ := hf
      rw [← hb'] at hp
      rw [← hss] at hq
      rcases List.mem_cons.mp hp with rfl | hp'
      · exact absurd hppend hskip
      · exact ih sells bs ss ps hrec p hp' hppend q hq hqpend
    · cases hm : matchBuy dp d b sells with
      | error e =>
        rw [hm] at h
        exact Except.noConfusion h
      | ok r =>
        obtain ⟨b₀, sells₁, pr₀⟩ := r
        rw [hm] at h
        obtain ⟨⟨bs, ss, ps⟩, hrec, hf⟩ := exceptMap_ok _ _ _ h
        simp only [Prod.mk.injEq] at hf
        obtain ⟨hb', hss, -⟩ := hf
        rw [← hb'] at hp
        rw [← hss] at hq
        rcases List.mem_cons.mp hp with rfl | hp'
        · obtain ⟨hbb, hseq, hgap⟩ :=
            matchBuy_pending dp d b sells b₀ sells₁ pr₀ hm hppend
          have hstep := clearBuys_sells_step dp d rest sells₁ bs ss ps hrec
          obtain ⟨y, hy, hys⟩ := forallTwo_mem_right hstep q hq
          obtain ⟨hk, -, -, -, hor⟩ := hys
          rcases hor with hqy | hqex
          · have hqmem : q ∈ sells := by
              have hqy' : q = y := by
                obtain ⟨q1, q2⟩ := q
                obtain ⟨y1, y2⟩ := y
                simp only at hk hqy
                rw [Prod.mk.injEq]
                exact ⟨hk.symm, hqy⟩
              rw [hqy', ← hseq]
              exact hy
            have hg := hgap q hqmem hqpend
            simpa [hbb] using hg
          · rw [hqex] at hqpend
            cases hqpend
        · exact ih sells₁ bs ss ps hrec p hp' hppend q hq hqpend

/-- When every PENDING buy is priced strictly below every PENDING sell,
the outer loop changes nothing and creates no pairs. -/
theorem clearBuys_nomatch (dp : Option MarketData) (d : Nat) :
    ∀ (buys sells : List (Nat × Bid)),
      (∀ p ∈ buys, p.2.status = BidStatus.pending →
        ∀ q ∈ sells, q.2.status = BidStatus.pending → p.2.price < q.2.price) →
      clearBuys dp d buys sells = .ok (buys, sells, []) := by
  intro buys
  induction buys with
  | nil =>
    intro sells h
    rfl
  | cons hd rest ih =>
    obtain ⟨i, b⟩ := hd
    intro sells hgap
    have hrec := ih sells fun p hp hpd => hgap p (List.mem_cons_of_mem _ hp) hpd
    by_cases hpend : b.status = BidStatus.pending
    · have hnm := matchBuy_nomatch dp d b sells
        (hgap (i, b) (List.mem_cons_self _ _) hpend)
      simp only [clearBuys]
      rw [if_neg (not_not_intro hpend), hnm]
      simp only [hrec, Except.map, Option.elim]
    · simp only [clearBuys]
      rw [if_pos hpend, hrec]
      rfl

/-- Every pair created by the outer loop is built by `mkContractPair`
from two PENDING bids whose prices cross. -/
theorem clearBuys_pairs (dp : Option MarketData) (d : Nat) :
    ∀ (buys sells buys' sells' : List (Nat × Bid))
      (pairs : List (Contract × Contract)),
      clearBuys dp d buys sells = .ok (buys', sells', pairs) →
      ∀ pr ∈ pairs, ∃ b s p, b.status = BidStatus.pending ∧
        s.status = BidStatus.pending ∧ s.price ≤ b.price ∧
        pr = mkContractPair b s p d := by
  intro buys
  induction buys with
  | nil =>
    intro sells buys' sells' pairs h pr hpr
    simp only [clearBuys, Except.ok.injEq, Prod.mk.injEq] at h
    obtain ⟨-, -, h3⟩ := h
    rw [← h3] at hpr
    cases hpr
  | cons hd rest ih =>
    obtain ⟨i, b⟩ := hd
    intro sells buys' sells' pairs h pr hpr
    simp only [clearBuys] at h
    split at h
    · obtain ⟨⟨bs, ss, ps⟩, hrec, hf⟩ := exceptMap_ok _ _ _ h
      simp only [Prod.mk.injEq] at hf
      obtain ⟨-, -, hps⟩ := hf
      rw [← hps] at hpr
      exact ih sells bs ss ps hrec pr hpr
    · next hpends =>
      cases hm : matchBuy dp d b sells with
      | error e =>
        rw [hm] at h
        exact Except.noConfusion h
      | ok r =>
        obtain ⟨b₀, sells₁, pr₀⟩ := r
        rw [hm] at h
        obtain ⟨⟨bs, ss, ps⟩, hrec, hf⟩ := exceptMap_ok _ _ _ h
        simp only [Prod.mk.injEq] at hf
        obtain ⟨-, -, hps⟩ := hf
        rw [← hps] at hpr
        cases pr₀ with
        | none => exact ih sells₁ bs ss ps hrec pr hpr
        | some pr1 =>
          simp only [Option.elim] at hpr
          rcases List.mem_cons.mp hpr with rfl | hpr'
          · obtain ⟨s, p, hspend, hcross, hmk⟩ :=
              matchBuy_pair dp d b sells b₀ sells₁ pr hm
            exact ⟨b, s, p, not_ne_iff.mp hpends, hspend, hcross, hmk⟩
          · exact ih sells₁ bs ss ps hrec pr hpr'

/-- Membership in the sorted buy list comes from the PENDING set with
the buy side. -/
theorem clearBuyList_mem (db : DB) (d : Nat) (p : Nat × Bid)
    (hp : p ∈ clearBuyList db d) :
    p ∈ clearPendingIdx db d ∧ p.2.bid_type = BidType.buy := by
  have h := (mem_insertionSortBy _ p _).mp hp
  obtain ⟨h1, h2⟩ := List.mem_filter.mp h
  exact ⟨h1, by simpa using h2⟩

/-- Membership in the sorted sell list comes from the PENDING set with
the sell side. -/
theorem clearSellList_mem (db : DB) (d : Nat) (p : Nat × Bid)
    (hp : p ∈ clearSellList db d) :
    p ∈ clearPendingIdx db d ∧ p.2.bid_type = BidType.sell := by
  have h := (mem_insertionSortBy _ p _).mp hp
  obtain ⟨h1, h2⟩ := List.mem_filter.mp h
  exact ⟨h1, by simpa using h2⟩

/-- Every buy-side row of the PENDING set appears in the sorted buy
list. -/
theorem mem_clearBuyList (db : DB) (d : Nat) (p : Nat × Bid)
    (h1 : p ∈ clearPendingIdx db d) (h2 : p.2.bid_type = BidType.buy) :
    p ∈ clearBuyList db d :=
  (mem_insertionSortBy _ p _).mpr (List.mem_filter.mpr ⟨h1, by simp [h2]⟩)

/-- Every sell-side row of the PENDING set appears in the sorted sell
list. -/
theorem mem_clearSellList (db : DB) (d : Nat) (p : Nat × Bid)
    (h1 : p ∈ clearPendingIdx db d) (h2 : p.2.bid_type = BidType.sell) :
    p ∈ clearSellList db d :=
  (mem_insertionSortBy _ p _).mpr (List.mem_filter.mpr ⟨h1, by simp [h2]⟩)

/-- A row of the written-back bid table is either the value of an
updated entry or an untouched original row whose position no updated
entry carries. -/
theorem writeBack_mem (db : DB) (updated : List (Nat × Bid)) (b : Bid)
    (hb : b ∈ writeBack db updated) :
    (∃ u ∈ updated, u.2 = b) ∨
    (∃ p ∈ db.bids.enum, p.2 = b ∧ ∀ u ∈ updated, u.1 ≠ p.1) := by
  unfold writeBack at hb
  obtain ⟨p, hp, hfp⟩ := List.mem_map.mp hb
  cases hf : (updated.find? fun u => u.1 == p.1) with
  | some u =>
    rw [hf] at hfp
    exact Or.inl ⟨u, List.mem_of_find?_eq_some hf, hfp⟩
  | none =>
    rw [hf] at hfp
    refine Or.inr ⟨p, hp, hfp, ?_⟩
    intro u hu
    have := List.find?_eq_none.mp hf u hu
    simpa using this

/-- A bid that is still PENDING for the cleared date in the written-back
table is the value of a residual entry of the matching loop's output, on
the list of its own side. -/
theorem clear_residual_pending (db : DB) (d : Nat)
    (buys' sells' : List (Nat × Bid)) (pairs : List (Contract × Contract))
    (hcb : clearBuys (clearDaPrice db d) d (clearBuyList db d) (clearSellList db d)
      = .ok (buys', sells', pairs))
    (b : Bid) (hb : b ∈ writeBack db (buys' ++ sells'))
    (hpend : clearingPending d b = true) :
    (b.bid_type = BidType.buy → ∃ u ∈ buys', u.2 = b) ∧
    (b.bid_type = BidType.sell → ∃ u ∈ sells', u.2 = b) := by
  have hbstep := clearBuys_buys_step _ _ _ _ _ _ _ hcb
  have hsstep := clearBuys_sells_step _ _ _ _ _ _ _ hcb
  rcases writeBack_mem db _ b hb with ⟨u, hu, hub⟩ | ⟨p, hp, hpb, hnone⟩
  · rcases List.mem_append.mp hu with hu' | hu'
    · have hty : b.bid_type = BidType.buy := by
        obtain ⟨y, hy, hys⟩ := forallTwo_mem_right hbstep u hu'
        rw [← hub, hys.2.2.1, (clearBuyList_mem db d y hy).2]
      refine ⟨fun _ => ⟨u, hu', hub⟩, fun hsell => ?_⟩
      rw [hty] at hsell
      cases hsell
    · have hty : b.bid_type = BidType.sell := by
        obtain ⟨y, hy, hys⟩ := forallTwo_mem_right hsstep u hu'
        rw [← hub, hys.2.2.1, (clearSellList_mem db d y hy).2]
      refine ⟨fun hbuy => ?_, fun _ => ⟨u, hu', hub⟩⟩
      rw [hty] at hbuy
      cases hbuy
  · have hpidx : p ∈ clearPendingIdx db d :=
      List.mem_filter.mpr ⟨hp, by rw [hpb]; exact hpend⟩
    exfalso
    cases htype : p.2.bid_type with
    | buy =>
      have hmem := mem_clearBuyList db d p hpidx htype
      obtain ⟨u, hu, hus⟩ := forallTwo_mem_left hbstep p hmem
      exact absurd hus.1.symm (hnone u (List.mem_append_left _ hu))
    | sell =>
      have hmem := mem_clearSellList db d p hpidx htype
      obtain ⟨u, hu, hus⟩ := forallTwo_mem_left hsstep p hmem
      exact absurd hus.1.symm (hnone u (List.mem_append_right _ hu))

/-- Closed form of a successful `clear_market` on a non-empty PENDING
set. -/
theorem clear_market_eq_of (db : DB) (d : Nat)
    (h0 : clearPendingIdx db d ≠ [])
    (buys' sells' : List (Nat × Bid)) (pairs : List (Contract × Contract))
    (hcb : clearBuys (clearDaPrice db d) d (clearBuyList db d) (clearSellList db d)
      = .ok (buys', sells', pairs)) :
    clear_market db d
      = .ok ({ db with
                 bids := writeBack db (buys' ++ sells'),
                 contracts := db.contracts ++ pairs.flatMap fun pr => [pr.1, pr.2] },
             2 * pairs.length) := by
  unfold clear_market
  rw [if_neg h0, hcb]

/-- Inversion of a successful `clear_market`. -/
theorem clear_market_ok (db : DB) (d : Nat) (db' : DB) (n : Nat)
    (h : clear_market db d = .ok (db', n)) :
    (clearPendingIdx db d = [] ∧ db' = db ∧ n = 0) ∨
    (clearPendingIdx db d ≠ [] ∧ ∃ buys' sells' pairs,
      clearBuys (clearDaPrice db d) d (clearBuyList db d) (clearSellList db d)
        = .ok (buys', sells', pairs) ∧
      db' = { db with
                bids := writeBack db (buys' ++ sells'),
                contracts := db.contracts ++ pairs.flatMap fun pr => [pr.1, pr.2] } ∧
      n = 2 * pairs.length) := by
  unfold clear_market at h
  by_cases h0 : clearPendingIdx db d = []
  · rw [if_pos h0] at h
    simp only [Except.ok.injEq, Prod.mk.injEq] at h
    exact Or.inl ⟨h0, h.1.symm, h.2.symm⟩
  · rw [if_neg h0] at h
    obtain ⟨r, hcb⟩ : ∃ r,
        clearBuys (clearDaPrice db d) d (clearBuyList db d) (clearSellList db d)
          = .ok r := by
      cases hres : clearBuys (clearDaPrice db d) d (clearBuyList db d)
          (clearSellList db d) with
      | error e =>
        rw [hres] at h
        exact Except.noConfusion h
      | ok r => exact ⟨r, rfl⟩
    obtain ⟨buys', sells', pairs⟩ := r
    rw [hcb] at h
    simp only [Except.ok.injEq, Prod.mk.injEq] at h
    exact Or.inr ⟨h0, buys', sells', pairs, hcb, h.1.symm, h.2.symm⟩

/-- Under the schema-repaired reading only, clearing a date twice in a
row is idempotent: after a successful `clear_market db d = ok (db', n)`,
the second run on `db'` succeeds, reports zero new contracts, and leaves
the contract table of `db'` unchanged — the bids executed by the first
run fail the PENDING filter, and the residual PENDING bids admit no new
match (every residual PENDING buy is priced strictly below every
residual PENDING sell).  The hypothesis is unsatisfiable for the source
as written, whose every call fails (`clear_market_as_written`). -/
theorem clear_market_idempotent (db : DB) (d : Nat) (db' : DB) (n : Nat)
    (h : clear_market db d = .ok (db', n)) :
    ∃ db2, clear_market db' d = .ok (db2, 0) ∧ db2.contracts = db'.contracts := by
  rcases clear_market_ok db d db' n h with ⟨h0, rfl, -⟩ |
    ⟨h0, buys', sells', pairs, hcb, hdb', -⟩
  · refine ⟨db', ?_, rfl⟩
    unfold clear_market
    rw [if_pos h0]
  · subst hdb'
    set db1 : DB := { db with
                        bids := writeBack db (buys' ++ sells'),
                        contracts := db.contracts ++
                          pairs.flatMap fun pr => [pr.1, pr.2] } with hdef
    by_cases h02 : clearPendingIdx db1 d = []
    · refine ⟨db1, ?_, rfl⟩
      unfold clear_market
      rw [if_pos h02]
    · have hresidual : ∀ b : Bid, b ∈ db1.bids → clearingPending d b = true →
          (b.bid_type = BidType.buy → ∃ u ∈ buys', u.2 = b) ∧
          (b.bid_type = BidType.sell → ∃ u ∈ sells', u.2 = b) := by
        intro b hb hpend
        exact clear_residual_pending db d buys' sells' pairs hcb b hb hpend
      have hgap : ∀ p ∈ clearBuyList db1 d, p.2.status = BidStatus.pending →
          ∀ q ∈ clearSellList db1 d, q.2.status = BidStatus.pending →
            p.2.price < q.2.price := by
        intro p hp hppend q hq hqpend
        obtain ⟨hpidx, hptype⟩ := clearBuyList_mem db1 d p hp
        obtain ⟨hqidx, hqtype⟩ := clearSellList_mem db1 d q hq
        obtain ⟨hpenum, hpclear⟩ := List.mem_filter.mp hpidx
        obtain ⟨hqenum, hqclear⟩ := List.mem_filter.mp hqidx
        have hpbids : p.2 ∈ db1.bids := by
          rw [← List.enum_map_snd db1.bids]
          exact List.mem_map_of_mem _ hpenum
        have hqbids : q.2 ∈ db1.bids := by
          rw [← List.enum_map_snd db1.bids]
          exact List.mem_map_of_mem _ hqenum
        obtain ⟨u, hu, hu2⟩ := (hresidual p.2 hpbids hpclear).1 hptype
        obtain ⟨v, hv, hv2⟩ := (hresidual q.2 hqbids hqclear).2 hqtype
        have hg := clearBuys_gap _ _ _ _ _ _ _ hcb u hu
          (by rw [hu2]; exact hppend) v hv (by rw [hv2]; exact hqpend)
        rw [hu2, hv2] at hg
        exact hg
      have hcb2 := clearBuys_nomatch (clearDaPrice db1 d) d
        (clearBuyList db1 d) (clearSellList db1 d) hgap
      refine ⟨_, clear_market_eq_of db1 d h02 _ _ _ hcb2, ?_⟩
      simp

/-- Concrete run of the repaired-reading idempotence: clearing
`exDbPair` for date 3 succeeds with two contracts, and the second run on
the resulting store reports zero new contracts with the contract table
unchanged. -/
theorem clear_market_idempotent_witness :
    ∃ db2, clear_market exDbPairOut 3 = .ok (db2, 0) ∧
      db2.contracts = exDbPairOut.contracts :=
  clear_market_idempotent exDbPair 3 exDbPairOut 2 (by with_unfolding_all rfl)

/-- Under the schema-repaired reading only: every successful clearing
pass creates its contracts as a list of matched pairs — one BUY-side and
one SELL-side contract per match, both carrying the same quantity
`min(buyRemaining, sellRemaining)` of the matched bids at the moment of
the match (the bids `b`, `s` below are the matched rows in their
at-match state) and the same execution price, with the reported count
twice the number of matches.  No pass of the source as written ever
succeeds, so no match ever occurs there (`clear_market_as_written`). -/
theorem clear_market_contract_pairs (db : DB) (d : Nat) (db' : DB) (n : Nat)
    (h : clear_market db d = .ok (db', n)) :
    ∃ pairs : List (Contract × Contract),
      db'.contracts = db.contracts ++ pairs.flatMap (fun pr => [pr.1, pr.2]) ∧
      n = 2 * pairs.length ∧
      ∀ pr ∈ pairs, ∃ b s p, b.status = BidStatus.pending ∧
        s.status = BidStatus.pending ∧ s.price ≤ b.price ∧
        pr = mkContractPair b s p d ∧
        pr.1.contract_type = "BUY" ∧ pr.2.contract_type = "SELL" ∧
        pr.1.quantity = min b.quantity s.quantity ∧
        pr.2.quantity = min b.quantity s.quantity ∧
        pr.1.execution_price = pr.2.execution_price := by
  rcases clear_market_ok db d db' n h with ⟨h0, rfl, rfl⟩ |
    ⟨h0, buys', sells', pairs, hcb, hdb', hn⟩
  · refine ⟨[], by simp, rfl, ?_⟩
    intro pr hpr
    cases hpr
  · subst hdb' hn
    refine ⟨pairs, by simp, rfl, ?_⟩
    intro pr hpr
    obtain ⟨b, s, p, hb, hs, hle, hmk⟩ :=
      clearBuys_pairs _ _ _ _ _ _ _ hcb pr hpr
    subst hmk
    exact ⟨b, s, p, hb, hs, hle, rfl, rfl, rfl, rfl, rfl, rfl⟩

/-- Concrete run of the repaired-reading pair structure: the pass on
`exDbPair` yields one pair — a BUY and a SELL contract of quantity
`min 5 5` at price 48 — and reports 2. -/
theorem clear_market_contract_pairs_witness :
    ∃ pairs : List (Contract × Contract),
      exDbPairOut.contracts
          = exDbPair.contracts ++ pairs.flatMap (fun pr => [pr.1, pr.2]) ∧
      2 = 2 * pairs.length ∧
      ∀ pr ∈ pairs, ∃ b s p, b.status = BidStatus.pending ∧
        s.status = BidStatus.pending ∧ s.price ≤ b.price ∧
        pr = mkContractPair b s p 3 ∧
        pr.1.contract_type = "BUY" ∧ pr.2.contract_type = "SELL" ∧
        pr.1.quantity = min b.quantity s.quantity ∧
        pr.2.quantity = min b.quantity s.quantity ∧
        pr.1.execution_price = pr.2.execution_price :=
  clear_market_contract_pairs exDbPair 3 exDbPairOut 2 (by with_unfolding_all rfl)

/-- C5: the claim states that running `clear(date)` twice in a row is
idempotent, with all contracts created by the first run and the second
run reporting zero.  In the source as written no first run ever
completes, on any store: the day-ahead query at clearing_service.py
lines 27-33 reads the nonexistent `MarketData.trade_date` column and
raises `AttributeError` before even the empty-bids return, so no run
creates any contract.  Evaluated on the crossing-pair store `exDbPair`
(where the intended design would trade) and proved for every store. -/
theorem clear_market_as_written_first_run_fails :
    clear_market_as_written exDbPair 3 = .error attrErrorTradeDate ∧
    ∀ (db : DB) (d : Nat),
      clear_market_as_written db d = .error attrErrorTradeDate :=
  ⟨rfl, fun _ _ => rfl⟩

/-- C6: the claim describes what every match in a clearing pass
produces.  In the source as written no clearing pass ever succeeds —
every call fails at the day-ahead query (clearing_service.py lines
27-33) before the matching loop — so no match ever occurs and no
contract pair is ever produced; the claim's scenario is unreachable.
Evaluated on the crossing-pair store `exDbPair` and proved for every
store.  (Under the schema-repaired reading the pair structure does hold:
`clear_market_contract_pairs`.) -/
theorem clear_market_as_written_never_matches :
    (clear_market_as_written exDbPair 3).isOk = false ∧
    ∀ (db : DB) (d : Nat), (clear_market_as_written db d).isOk = false :=
  ⟨rfl, fun _ _ => rfl⟩

/-- C7: the claim states that every eligible contract with both quotes
gets a PnL entry with the signed formula amount.  In the source as
written, whenever at least one eligible contract exists the first
iteration's day-ahead lookup (pnl_service.py lines 40-46) reads the
nonexistent `MarketData.trade_date` column and raises `AttributeError`,
so no record is ever emitted.  Evaluated at the claim's own scenario:
`exConBuy` is eligible for owner 7 on date 0 and its hour has both the
day-ahead and the real-time quote (under the repaired lookups), yet the
call errors. -/
theorem calculate_pnl_as_written_errors :
    pnlEligible 7 0 exConBuy = true ∧
    exConBuy ∈ exDbPnl.contracts ∧
    priceLookup exDbPnl 0 exConBuy.hour .dayAhead = some exDam ∧
    priceLookup exDbPnl 0 exConBuy.hour .realTime = some exRtm ∧
    calculate_pnl_as_written exDbPnl 7 0 = .error attrErrorTradeDate := by
  exact ⟨by decide, by decide, rfl, rfl, rfl⟩

/-- C9: the claim states that when 24 quotes already exist for
(date, kind) the generator returns exactly those quotes unchanged.  In
the source as written `generate_mock_prices` fails on its first
statement — the existence query (market_data_service.py lines 18-23)
reads the nonexistent `MarketData.trade_date` column — for every input,
so it never returns existing quotes.  Evaluated on `exDbMdOut`, which
holds exactly 24 day-ahead quotes for the date (the claim's scenario),
and proved for every store. -/
theorem generate_mock_prices_as_written_errors :
    (existingQuotes exDbMdOut 0 .dayAhead).length = 24 ∧
    generate_mock_prices_as_written exDbMdOut 0 .dayAhead exVar
      = .error attrErrorTradeDate ∧
    ∀ (db : DB) (d : Nat) (t : MarketDataType) (v : Nat → ℚ),
      generate_mock_prices_as_written db d t v = .error attrErrorTradeDate := by
  exact ⟨by with_unfolding_all rfl, rfl, fun _ _ _ _ => rfl⟩

end VET
